import Mathlib

/-!
Shallow embedding of the `csharp-mem` typed remote-memory decoding layer
(`src/src/lib.rs`) and of the lazy field-binding generator's generated code
(`src/derive/src/lib.rs`), together with theorems settling the frozen claims.

Machine integers (`u32`, `u64`, addresses) are modelled as `Nat`; no claim
depends on wrap-around arithmetic.  The `MemReader` trait's generic
`read::<T>` is modelled as a structure of typed read functions, one per
shape the library reads (`u32` header fields, `u64` pointers, `u16` code
units, and the element type of the view at hand).  Fallible reads return
`Option`.
-/

/-- Model of the `MemReader` trait: one fallible read function per shape the
library reads from target memory.  `elem` models `read::<T>` at the element
type `ε` of the view under consideration. -/
structure MemReader (ε : Type) where
  u32 : Nat → Option Nat
  u64 : Nat → Option Nat
  u16 : Nat → Option Nat
  elem : Nat → Option ε

/-- Model of `Pointer<T>`: an absolute address (the phantom type parameter
carries no runtime data and is dropped). -/
structure Pointer where
  address : Nat
deriving DecidableEq

/-- `Pointer::resolve`: null-checks, then delegates to `T::resolve`
(here an arbitrary resolution function `res`). -/
def Pointer.resolve (res : MemReader ε → Nat → Option τ) (r : MemReader ε)
    (p : Pointer) : Option τ :=
  if p.address = 0 then none else res r p.address

/-- `Pointer::read`: null-checks, then a direct fixed-size read at `address`. -/
def Pointer.read (r : MemReader ε) (p : Pointer) : Option ε :=
  if p.address = 0 then none else r.elem p.address

/-- `Pointer::resolve_as_with`: null-checks, then hands the address to the
binding. -/
def Pointer.resolve_as_with (binding : Nat → Option τ) (p : Pointer) : Option τ :=
  if p.address = 0 then none else binding p.address

/-- `Pointer::resolve_with`: delegates to `resolve_as_with`. -/
def Pointer.resolve_with (binding : Nat → Option τ) (p : Pointer) : Option τ :=
  p.resolve_as_with binding

/-- `Pointer::deref`: reads the raw 8-byte value stored at the pointer's own
address.  Note: the source performs no null check here. -/
def Pointer.deref (r : MemReader ε) (p : Pointer) : Option Nat :=
  r.u64 p.address

/-- Model of `ArrayIter<T, R>`: current position and one-past-the-end address
(`stop` models the source's `end` field, which is not a legal Lean name). -/
structure ArrayIter where
  pos : Nat
  stop : Nat
deriving DecidableEq

/-- `ArrayIter::next`: stop when `pos >= end`, otherwise read at `pos` (a
failed read yields `None` without advancing) and advance by `size_of::<T>()`
(the parameter `sz`). -/
def ArrayIter.next (rd : Nat → Option ε) (sz : Nat) (it : ArrayIter) :
    Option (ε × ArrayIter) :=
  if it.stop ≤ it.pos then none
  else
    match rd it.pos with
    | none => none
    | some item => some (item, ⟨it.pos + sz, it.stop⟩)

/-- Drain the iterator into a list, bounded by `fuel` polls (a Rust iterator
is only ever polled finitely often; the canonical fuel below suffices to
exhaust it). -/
def ArrayIter.collect (rd : Nat → Option ε) (sz : Nat) :
    Nat → ArrayIter → List ε
  | 0, _ => []
  | fuel + 1, it =>
    match it.next rd sz with
    | none => []
    | some (x, it') => x :: ArrayIter.collect rd sz fuel it'

/-- The full yield sequence of an `ArrayIter`: `stop - pos` polls always
suffice because each yield advances `pos` by `sz ≥ 1` in every reachable
iterator. -/
def ArrayIter.toList (rd : Nat → Option ε) (sz : Nat) (it : ArrayIter) : List ε :=
  ArrayIter.collect rd sz (it.stop - it.pos) it

/-- Model of `Array<T>`: header address plus the `size` cached at resolution
time. -/
structure CsArray where
  addr : Nat
  size : Nat
deriving DecidableEq

/-- `Array::SIZE`: offset of the length header field. -/
def CsArray.SIZE : Nat := 0x18

/-- `Array::DATA`: offset of the first element. -/
def CsArray.DATA : Nat := 0x20

/-- `Array::iter` drained to a list: starts at `addr + DATA` and ends at
`start + size_of::<T>() * size`. -/
def CsArray.iterList (r : MemReader ε) (sz : Nat) (a : CsArray) : List ε :=
  ArrayIter.toList r.elem sz
    ⟨a.addr + CsArray.DATA, a.addr + CsArray.DATA + sz * a.size⟩

/-- `Array::get`: a direct computed-offset read, no bounds check. -/
def CsArray.get (r : MemReader ε) (sz : Nat) (a : CsArray) (index : Nat) :
    Option ε :=
  r.elem (a.addr + CsArray.DATA + index * sz)

/-- `Array::as_slice`: re-reads the length header via the reader, then
reinterprets the monitoring process's own memory (modelled by `mem`) at the
data address as `len` elements. -/
def CsArray.as_slice (r : MemReader ε) (mem : Nat → ε) (sz : Nat) (a : CsArray) :
    Option (List ε) :=
  (r.u32 (a.addr + CsArray.SIZE)).map fun len =>
    (List.range len).map fun i => mem (a.addr + CsArray.DATA + i * sz)

/-- `Resolve for Array<T>`: read the length header once, cache it. -/
def CsArray.resolve (r : MemReader ε) (addr : Nat) : Option CsArray :=
  (r.u32 (addr + CsArray.SIZE)).map fun size => ⟨addr, size⟩

/-- Outcome of an operation that can also hit a fatal assertion: a value,
absence (`Option::None`), or a panic.  Used for `List::as_slice`'s
slice-bounds panic and for the generated binding's `expect` on a zero field
offset. -/
inductive RRes (α : Type) where
  | ok (a : α)
  | absent
  | panicked
deriving DecidableEq

/-- Model of `CSString`: header address plus the code-unit `size` cached at
resolution time. -/
structure CSString where
  addr : Nat
  size : Nat
deriving DecidableEq

/-- `CSString::SIZE`: offset of the length header field. -/
def CSString.SIZE : Nat := 0x10

/-- `CSString::DATA`: offset of the first UTF-16 code unit. -/
def CSString.DATA : Nat := 0x14

/-- Combine a UTF-16 surrogate pair into its scalar value. -/
def combineSurrogates (hi lo : Nat) : Nat :=
  0x10000 + (hi - 0xD800) * 0x400 + (lo - 0xDC00)

/-- Model of `char::decode_utf16` on a fully-materialised code-unit sequence:
`some c` for a decoded character, `none` for an unpaired/invalid surrogate
(the source's `Err` case). -/
def decode_utf16 : List Nat → List (Option Char)
  | [] => []
  | u :: rest =>
    if 0xD800 ≤ u ∧ u < 0xDC00 then
      match rest with
      | [] => [none]
      | u2 :: rest2 =>
        if 0xDC00 ≤ u2 ∧ u2 < 0xE000 then
          some (Char.ofNat (combineSurrogates u u2)) :: decode_utf16 rest2
        else
          none :: decode_utf16 (u2 :: rest2)
    else if 0xDC00 ≤ u ∧ u < 0xE000 then
      none :: decode_utf16 rest
    else
      some (Char.ofNat u) :: decode_utf16 rest
termination_by us => us.length

/-- `CSString::chars`: drain the `u16` iterator over
`[addr + DATA, addr + DATA + 2 * size)`, decode it as UTF-16, and replace
each error by `char::REPLACEMENT_CHARACTER`. -/
def CSString.chars (r : MemReader ε) (s : CSString) : List Char :=
  (decode_utf16
      (ArrayIter.toList r.u16 2
        ⟨s.addr + CSString.DATA, s.addr + CSString.DATA + 2 * s.size⟩)).map
    fun o => o.getD (Char.ofNat 0xFFFD)

/-- `Resolve for CSString`: read the length header once, cache it. -/
def CSString.resolve (r : MemReader ε) (addr : Nat) : Option CSString :=
  (r.u32 (addr + CSString.SIZE)).map fun size => ⟨addr, size⟩

/-- Model of `List<T>`: header address, the nested backing `Array<T>`, and
the logical `size` cached at resolution time. -/
structure CsList where
  addr : Nat
  items : CsArray
  size : Nat
deriving DecidableEq

/-- `List::ITEMS`: offset of the backing-array pointer. -/
def CsList.ITEMS : Nat := 0x10

/-- `List::SIZE`: offset of the logical size field. -/
def CsList.SIZE : Nat := 0x18

/-- `List::iter` drained to a list: the backing array's iterator, clamped by
`take(size)`. -/
def CsList.iterList (r : MemReader ε) (sz : Nat) (l : CsList) : List ε :=
  (CsArray.iterList r sz l.items).take l.size

/-- `List::get`: delegates to `Array::get` on the backing array (the source
performs no clamp against the logical `size`). -/
def CsList.get (r : MemReader ε) (sz : Nat) (l : CsList) (index : Nat) :
    Option ε :=
  CsArray.get r sz l.items index

/-- `Resolve for List<T>`: read the logical size, then the backing-array
pointer, then resolve the backing array; any failure aborts the whole
resolution. -/
def CsList.resolve (r : MemReader ε) (addr : Nat) : Option CsList :=
  (r.u32 (addr + CsList.SIZE)).bind fun size =>
    (r.u64 (addr + CsList.ITEMS)).bind fun items =>
      (CsArray.resolve r items).map fun items => ⟨addr, items, size⟩

/-- `List::as_slice`: delegates to `Array::as_slice` on the backing array
(`?` on failure — so it re-reads the backing array's length header through
the reader), then takes the `&inner[..self.size]` sub-slice, which panics
when the re-read length is smaller than the cached logical size. -/
def CsList.as_slice (r : MemReader ε) (mem : Nat → ε) (sz : Nat) (l : CsList) :
    RRes (List ε) :=
  match CsArray.as_slice r mem sz l.items with
  | none => .absent
  | some inner =>
    if l.size ≤ inner.length then .ok (inner.take l.size)
    else .panicked

/-- Model of `Entry<K, V>`: a raw hash-bucket record. -/
structure Entry (κ υ : Type) where
  _hash : Nat
  _next : Nat
  key : κ
  value : υ
deriving DecidableEq

/-- Model of `Map<K, V>`: header address, the nested bucket
`Array<Entry<K, V>>`, and the logical `size` cached at resolution time. -/
structure CsMap (κ υ : Type) where
  addr : Nat
  entries : CsArray
  size : Nat

/-- `Map::ENTRIES`: offset of the bucket-array pointer. -/
def CsMap.ENTRIES : Nat := 0x18

/-- `Map::SIZE`: offset of the logical size field. -/
def CsMap.SIZE : Nat := 0x20

/-- `Map::iter` drained to a list: walk the bucket array, drop tombstones
(`hash == 0 && next == 0`), keep at most `size` survivors, project to
`(key, value)`. -/
def CsMap.iterList (r : MemReader (Entry κ υ)) (sz : Nat) (m : CsMap κ υ) :
    List (κ × υ) :=
  ((((CsArray.iterList r sz m.entries).filter
        fun e => e._hash != 0 || e._next != 0)).take m.size).map
    fun e => (e.key, e.value)

/-- `Resolve for Map<K, V>`: read the logical size, then the bucket-array
pointer, then resolve the bucket array; any failure aborts the whole
resolution. -/
def CsMap.resolve (r : MemReader (Entry κ υ)) (addr : Nat) :
    Option (CsMap κ υ) :=
  (r.u32 (addr + CsMap.SIZE)).bind fun size =>
    (r.u64 (addr + CsMap.ENTRIES)).bind fun entries =>
      (CsArray.resolve r entries).map fun entries => ⟨addr, entries, size⟩

/-- Model of `Set<T>`: a `Map<T, ()>`. -/
structure CsSet (τ : Type) where
  map : CsMap τ Unit

/-- `Set::iter` drained to a list: `Map::iter` projected to keys. -/
def CsSet.iterList (r : MemReader (Entry τ Unit)) (sz : Nat) (s : CsSet τ) :
    List τ :=
  (CsMap.iterList r sz s.map).map fun p => p.1

/-- `Resolve for Set<T>`: resolve the underlying map. -/
def CsSet.resolve (r : MemReader (Entry τ Unit)) (addr : Nat) :
    Option (CsSet τ) :=
  (CsMap.resolve r addr).map fun m => ⟨m⟩

/-!
Model of the code generated by `generate_binding` / `non_static_binding` in
`src/derive/src/lib.rs` for a class description with `n` plain (instance)
fields, identified by their position `0, …, n-1` in the field list.
-/

/-- The external capabilities a generated binding calls: the reflection
lookups (`Image::get_class`, `Class::get_field`, keyed here by field
position) and the data-read capability (`Process::read`).  All are
deterministic within one `Game` context, matching two consecutive `read`
calls on the same arguments. -/
structure BindEnv where
  getClass : Option Nat
  get_field : Nat → Option Nat
  readMem : Nat → Option Nat

/-- The generated binding struct: the cached class handle (`class:
Option<Class>`, named `cls` because `class` is a Lean keyword) and one cache
slot per field (`Option<NonZeroU32>`, the resolved offset). -/
structure BindingState where
  cls : Option Nat
  fields : List (Option Nat)
deriving DecidableEq

/-- The generated `bind()`: empty caches, no I/O, always succeeds. -/
def BindingState.bind (n : Nat) : BindingState :=
  ⟨none, List.replicate n none⟩

/-- The generated per-field lookup block: for each field in order, use the
cached offset if present, otherwise call `class.get_field` (`?` on failure,
fatal assertion on a zero offset, cache on success).  Returns the combined
outcome, the updated cache slots, and the number of `get_field` invocations. -/
def lookupFields (env : BindEnv) : Nat → List (Option Nat) →
    RRes (List Nat) × List (Option Nat) × Nat
  | _, [] => (.ok [], [], 0)
  | idx, c :: rest =>
    match c with
    | some v =>
      match lookupFields env (idx + 1) rest with
      | (.ok vs, rest', k) => (.ok (v :: vs), some v :: rest', k)
      | (res, rest', k) => (res, some v :: rest', k)
    | none =>
      match env.get_field idx with
      | none => (.absent, none :: rest, 1)
      | some off =>
        if off = 0 then (.panicked, none :: rest, 1)
        else
          match lookupFields env (idx + 1) rest with
          | (.ok vs, rest', k) => (.ok (off :: vs), some off :: rest', k + 1)
          | (res, rest', k) => (res, some off :: rest', k + 1)

/-- The generated data-read block: read every field at
`instance + offset.get()`; `?` on the first failure. -/
def readFields (env : BindEnv) (inst : Nat) : List Nat → Option (List Nat)
  | [] => some []
  | off :: rest =>
    match env.readMem (inst + off) with
    | none => none
    | some v => (readFields env inst rest).map fun vs => v :: vs

/-- The generated class-resolution block shared by `class()` and `read()`:
use the cached handle, otherwise call `Image::get_class` (cache on success,
leave empty on failure).  Returns the handle, the updated state, and the
number of `get_class` invocations. -/
def classStep (env : BindEnv) (st : BindingState) :
    Option Nat × BindingState × Nat :=
  match st.cls with
  | some c => (some c, st, 0)
  | none =>
    match env.getClass with
    | none => (none, st, 1)
    | some c => (some c, ⟨some c, st.fields⟩, 1)

/-- The generated `read(game, instance)`: resolve the class, resolve every
field offset, then perform all data reads; all-or-nothing.  Returns the
outcome, the binding's state after the call, and the pair
(class lookups performed, field lookups performed). -/
def bindingRead (env : BindEnv) (st : BindingState) (inst : Nat) :
    RRes (List Nat) × BindingState × (Nat × Nat) :=
  let cs := classStep env st
  match cs.1 with
  | none => (.absent, cs.2.1, (cs.2.2, 0))
  | some _ =>
    let lf := lookupFields env 0 cs.2.1.fields
    match lf.1 with
    | .ok offs =>
      match readFields env inst offs with
      | none => (.absent, ⟨cs.2.1.cls, lf.2.1⟩, (cs.2.2, lf.2.2))
      | some vals => (.ok vals, ⟨cs.2.1.cls, lf.2.1⟩, (cs.2.2, lf.2.2))
    | .absent => (.absent, ⟨cs.2.1.cls, lf.2.1⟩, (cs.2.2, lf.2.2))
    | .panicked => (.panicked, ⟨cs.2.1.cls, lf.2.1⟩, (cs.2.2, lf.2.2))

/-!
Model of the generation-time validation in `inner::process`
(`src/derive/src/lib.rs`): only the `static_field`/`singleton` attribute
flags of each field matter for the acceptance decision.
-/

/-- The attribute flags of one field in the class description. -/
structure FieldFlags where
  is_static : Bool
  is_singleton : Bool
deriving DecidableEq

/-- The generation-time errors of `inner::process`. -/
inductive GenError where
  | singletonAndStatic
  | multipleSingletons
  | mixedFields
deriving DecidableEq

/-- The field loop of `inner::process`: reject `singleton && static`, reject
a second singleton (checked against the non-static specs collected so far),
otherwise partition into static and non-static specs. -/
def processFields : List FieldFlags → List FieldFlags → List FieldFlags →
    Except GenError (List FieldFlags × List FieldFlags)
  | [], ss, ns => .ok (ss, ns)
  | f :: rest, ss, ns =>
    if f.is_singleton && f.is_static then .error .singletonAndStatic
    else if f.is_singleton && ns.any (fun o => o.is_singleton) then
      .error .multipleSingletons
    else if f.is_static then processFields rest (ss ++ [f]) ns
    else processFields rest ss (ns ++ [f])

/-- `inner::process`, reduced to its acceptance decision: run the field loop,
then reject a mix of static and non-static fields (either side empty selects
the static or non-static binding generator, both of which succeed). -/
def processStruct (fields : List FieldFlags) : Except GenError Unit :=
  match processFields fields [] [] with
  | .error e => .error e
  | .ok p =>
    if !p.1.isEmpty && !p.2.isEmpty then .error .mixedFields
    else .ok ()

/-!
## Shared iterator lemmas
-/

/-- Collecting an iterator whose `n` element reads all succeed yields exactly
those `n` values, in ascending address order. -/
theorem ArrayIter.collect_spec (rd : Nat → Option ε) (sz : Nat) :
    ∀ (n : Nat) (g : Nat → ε) (base fuel : Nat), 1 ≤ sz → n ≤ fuel →
      (∀ i, i < n → rd (base + i * sz) = some (g i)) →
      ArrayIter.collect rd sz fuel ⟨base, base + n * sz⟩ = (List.range n).map g := by
  intro n
  induction n with
  | zero =>
    intro g base fuel _ _ _
    cases fuel with
    | zero => rfl
    | succ fuel =>
      simp [ArrayIter.collect, ArrayIter.next]
  | succ n ih =>
    intro g base fuel hsz hfuel h
    cases fuel with
    | zero => omega
    | succ fuel =>
      have hlt : base < base + (n + 1) * sz := by
        have hpos : 0 < (n + 1) * sz := Nat.mul_pos (by omega) (by omega)
        omega
      have h0 : rd base = some (g 0) := by
        have := h 0 (by omega)
        simpa using this
      have hstep : base + (n + 1) * sz = (base + sz) + n * sz := by ring
      have hrec :
          ArrayIter.collect rd sz fuel ⟨base + sz, (base + sz) + n * sz⟩ =
            (List.range n).map fun i => g (i + 1) := by
        refine ih (fun i => g (i + 1)) (base + sz) fuel hsz (by omega) ?_
        intro i hi
        have := h (i + 1) (by omega)
        have harith : base + (i + 1) * sz = (base + sz) + i * sz := by ring
        rw [harith] at this
        exact this
      simp only [ArrayIter.collect, ArrayIter.next]
      rw [if_neg (by omega), h0]
      simp only [hstep, hrec]
      rw [List.range_succ_eq_map]
      simp

/-- `toList` form of `collect_spec`: the canonical fuel `stop - pos = n * sz`
is at least `n` when `sz ≥ 1`. -/
theorem ArrayIter.toList_spec (rd : Nat → Option ε) (sz n : Nat) (g : Nat → ε)
    (base : Nat) (hsz : 1 ≤ sz)
    (h : ∀ i, i < n → rd (base + i * sz) = some (g i)) :
    ArrayIter.toList rd sz ⟨base, base + n * sz⟩ = (List.range n).map g := by
  unfold ArrayIter.toList
  simp only
  have hfuel : n ≤ base + n * sz - base := by
    have h1 : n ≤ n * sz := by
      calc n = n * 1 := (Nat.mul_one n).symm
        _ ≤ n * sz := Nat.mul_le_mul_left n hsz
    omega
  exact ArrayIter.collect_spec rd sz n g base _ hsz hfuel h

/-- `Array::iter` over a reader supplying all `size` elements yields them all
in address order. -/
theorem CsArray.iterList_spec (r : MemReader ε) (sz : Nat) (a : CsArray)
    (g : Nat → ε) (hsz : 1 ≤ sz)
    (h : ∀ i, i < a.size → r.elem (a.addr + CsArray.DATA + i * sz) = some (g i)) :
    CsArray.iterList r sz a = (List.range a.size).map g := by
  unfold CsArray.iterList
  rw [Nat.mul_comm sz a.size]
  exact ArrayIter.toList_spec r.elem sz a.size g (a.addr + CsArray.DATA) hsz h

/-!
## Claim C1 (corrected)
-/

/-- C1, counterexample to the claim as stated: `Pointer::deref` performs no
null check, so on a pointer with address `0` it invokes the reader and
returns whatever the reader yields at address `0` — here `some 42`, not
absence. -/
theorem C1_deref_counterexample :
    Pointer.deref
        (⟨fun _ => none, fun _ => some 42, fun _ => none, fun _ => none⟩ :
          MemReader Nat)
        ⟨0⟩ = some 42 ∧
      Pointer.deref
          (⟨fun _ => none, fun _ => some 42, fun _ => none, fun _ => none⟩ :
            MemReader Nat)
          ⟨0⟩ ≠ none :=
  ⟨rfl, by decide⟩

/-- C1, amended: for a `Pointer` with address `0`, `resolve`, `read`,
`resolve_with` and `resolve_as_with` return `None` without invoking the
reader, resolution function, or binding (the result is `none` for every such
function); `deref`, by contrast, unconditionally reads the 8-byte value at
the pointer's own address. -/
theorem C1_null_pointer :
    (∀ (ε τ : Type) (res : MemReader ε → Nat → Option τ) (r : MemReader ε),
        Pointer.resolve res r ⟨0⟩ = none) ∧
      (∀ (ε : Type) (r : MemReader ε), Pointer.read r ⟨0⟩ = none) ∧
      (∀ (τ : Type) (b : Nat → Option τ), Pointer.resolve_with b ⟨0⟩ = none) ∧
      (∀ (τ : Type) (b : Nat → Option τ),
        Pointer.resolve_as_with b ⟨0⟩ = none) ∧
      (∀ (ε : Type) (r : MemReader ε) (p : Pointer),
        Pointer.deref r p = r.u64 p.address) :=
  ⟨fun _ _ _ _ => rfl, fun _ _ => rfl, fun _ _ => rfl, fun _ _ => rfl,
    fun _ _ _ => rfl⟩

/-!
## Claim C6 (confirmed)
-/

/-- C6: for an `Array` resolved with size `n` over a reader that returns an
element at every slot `header + DATA + i * sizeof(T)` for `i < n`, `iter`
yields exactly those `n` items in ascending address order, `get(i)` reads
from `header + DATA + i * sizeof(T)`, and `get(i)` equals the `i`-th item
yielded by `iter`. -/
theorem C6_array_iter_get (ε : Type) (r : MemReader ε) (sz : Nat)
    (a : CsArray) (g : Nat → ε) (hsz : 1 ≤ sz)
    (h : ∀ i, i < a.size →
      r.elem (a.addr + CsArray.DATA + i * sz) = some (g i)) :
    CsArray.iterList r sz a = (List.range a.size).map g ∧
      (∀ i, CsArray.get r sz a i = r.elem (a.addr + CsArray.DATA + i * sz)) ∧
      (∀ i, i < a.size → CsArray.get r sz a i = some (g i)) ∧
      (∀ i, i < a.size → (CsArray.iterList r sz a)[i]? = CsArray.get r sz a i) := by
  have hiter := CsArray.iterList_spec r sz a g hsz h
  refine ⟨hiter, fun _ => rfl, fun i hi => h i hi, fun i hi => ?_⟩
  rw [hiter]
  rw [List.getElem?_map, List.getElem?_range hi]
  exact (h i hi).symm

/-- C6, witness: a concrete 3-element array of 4-byte values laid out at
addresses `0x20`, `0x24`, `0x28`. -/
theorem C6_witness :
    CsArray.iterList
        (⟨fun _ => none, fun _ => none, fun _ => none, fun x => some x⟩ :
          MemReader Nat) 4 ⟨0, 3⟩ =
      (List.range 3).map (fun i => 0 + CsArray.DATA + i * 4) :=
  (C6_array_iter_get Nat
    ⟨fun _ => none, fun _ => none, fun _ => none, fun x => some x⟩ 4 ⟨0, 3⟩
    (fun i => 0 + CsArray.DATA + i * 4) (by decide) (fun i _ => rfl)).1

/-!
## Claim C3 (corrected)
-/

/-- C3, counterexample to the claim as stated: `List::get` performs no clamp
against the logical size.  A `List` with logical size `1` over a backing
array of capacity `2` surfaces the backing slot at index `1`: `get(1)`
returns the raw backing value instead of absence. -/
theorem C3_get_counterexample :
    CsList.get
        (⟨fun _ => none, fun _ => none, fun _ => none, fun x => some x⟩ :
          MemReader Nat) 4 ⟨0, ⟨100, 2⟩, 1⟩ 1 = some 136 ∧
      (⟨0, ⟨100, 2⟩, 1⟩ : CsList).size = 1 ∧
      CsList.get
          (⟨fun _ => none, fun _ => none, fun _ => none, fun x => some x⟩ :
            MemReader Nat) 4 ⟨0, ⟨100, 2⟩, 1⟩ 1 ≠ none :=
  ⟨rfl, rfl, by decide⟩

/-- C3, amended: `iter` does clamp to the logical size — for a `List` with
logical size `n` over a backing array of capacity `c ≥ n` whose element
reads succeed, `iter` yields exactly the first `n` elements — but `get(i)`
delegates to the backing `Array` *without* clamping: for every index `i`
(including `i ≥ n`) it is the raw computed-offset read on the backing
array. -/
theorem C3_list_clamping (ε : Type) (r : MemReader ε) (sz : Nat) (l : CsList)
    (g : Nat → ε) (hsz : 1 ≤ sz) (hle : l.size ≤ l.items.size)
    (h : ∀ i, i < l.items.size →
      r.elem (l.items.addr + CsArray.DATA + i * sz) = some (g i)) :
    CsList.iterList r sz l = (List.range l.size).map g ∧
      (∀ i, CsList.get r sz l i =
        r.elem (l.items.addr + CsArray.DATA + i * sz)) := by
  constructor
  · rw [CsList.iterList, CsArray.iterList_spec r sz l.items g hsz h,
      ← List.map_take, List.take_range, Nat.min_eq_left hle]
  · intro i
    rfl

/-- C3, witness: a list of logical size 1 over a capacity-2 backing array;
`iter` yields exactly one element. -/
theorem C3_witness :
    CsList.iterList
        (⟨fun _ => none, fun _ => none, fun _ => none, fun x => some x⟩ :
          MemReader Nat) 4 ⟨0, ⟨100, 2⟩, 1⟩ =
      (List.range 1).map (fun i => 100 + CsArray.DATA + i * 4) :=
  (C3_list_clamping Nat
    ⟨fun _ => none, fun _ => none, fun _ => none, fun x => some x⟩ 4
    ⟨0, ⟨100, 2⟩, 1⟩ (fun i => 100 + CsArray.DATA + i * 4) (by decide)
    (by decide) (fun i _ => rfl)).1

/-!
## Claim C10 (confirmed)
-/

/-- Index access distributes over `List.drop`. -/
theorem dropGetElem (l : List α) (n : Nat) : ∀ i, (l.drop n)[i]? = l[n + i]? := by
  induction l generalizing n with
  | nil => intro i; simp
  | cons a l ih =>
    intro i
    cases n with
    | zero => simp
    | succ n =>
      rw [List.drop_succ_cons, ih n i]
      have : n + 1 + i = (n + i) + 1 := by omega
      rw [this, List.getElem?_cons_succ]

/-- Decoding a code-unit sequence without any surrogate yields one character
per unit. -/
theorem decode_utf16_nonSurrogate :
    ∀ us : List Nat, (∀ u ∈ us, u < 0xD800 ∨ 0xE000 ≤ u) →
      decode_utf16 us = us.map fun u => some (Char.ofNat u) := by
  intro us
  induction us with
  | nil =>
    intro _
    rw [decode_utf16]
    rfl
  | cons u rest ih =>
    intro h
    have hu := h u (List.mem_cons_self u rest)
    rw [decode_utf16.eq_def]
    simp only []
    rw [if_neg (by omega), if_neg (by omega),
      ih fun x hx => h x (List.mem_cons_of_mem u hx), List.map_cons]

/-- Decoding a sequence whose single surrogate sits between non-surrogate
units yields one error (the unpaired surrogate) at that position and one
character per other unit. -/
theorem decode_utf16_one_surrogate :
    ∀ (pre : List Nat) (u : Nat) (post : List Nat),
      (∀ x ∈ pre, x < 0xD800 ∨ 0xE000 ≤ x) → 0xD800 ≤ u → u < 0xE000 →
      (∀ x ∈ post, x < 0xD800 ∨ 0xE000 ≤ x) →
      decode_utf16 (pre ++ u :: post) =
        (pre.map fun v => some (Char.ofNat v)) ++
          none :: (post.map fun v => some (Char.ofNat v)) := by
  intro pre
  induction pre with
  | nil =>
    intro u post _ hu1 hu2 hpost
    simp only [List.nil_append, List.map_nil]
    by_cases hhigh : u < 0xDC00
    · cases post with
      | nil =>
        rw [decode_utf16.eq_def]
        simp only []
        rw [if_pos ⟨hu1, hhigh⟩]
        rfl
      | cons u2 rest2 =>
        have hu2' := hpost u2 (List.mem_cons_self u2 rest2)
        rw [decode_utf16.eq_def]
        simp only []
        rw [if_pos ⟨hu1, hhigh⟩, if_neg (by omega : ¬(0xDC00 ≤ u2 ∧ u2 < 0xE000)),
          decode_utf16_nonSurrogate (u2 :: rest2) hpost]
    · rw [decode_utf16.eq_def]
      simp only []
      rw [if_neg (by omega), if_pos ⟨by omega, hu2⟩,
        decode_utf16_nonSurrogate post hpost]
  | cons p pre ih =>
    intro u post hpre hu1 hu2 hpost
    have hp := hpre p (List.mem_cons_self p pre)
    simp only [List.cons_append]
    rw [decode_utf16.eq_def]
    simp only []
    rw [if_neg (by omega), if_neg (by omega),
      ih u post (fun x hx => hpre x (List.mem_cons_of_mem p hx)) hu1 hu2 hpost,
      List.map_cons, List.cons_append]

/-- C10: for a `CSString` of length `n` whose `n` code-unit reads all
succeed, containing exactly one (necessarily unpaired) surrogate at position
`k` and non-surrogate units everywhere else, `chars` yields exactly `n`
characters and the `k`-th one is the Unicode replacement character. -/
theorem C10_chars (ε : Type) (r : MemReader ε) (s : CSString) (us : List Nat)
    (k u : Nat)
    (hus : ArrayIter.toList r.u16 2
      ⟨s.addr + CSString.DATA, s.addr + CSString.DATA + 2 * s.size⟩ = us)
    (hlen : us.length = s.size)
    (hk : us[k]? = some u)
    (hsur1 : 0xD800 ≤ u) (hsur2 : u < 0xE000)
    (hother : ∀ i v, i ≠ k → us[i]? = some v → v < 0xD800 ∨ 0xE000 ≤ v) :
    (CSString.chars r s).length = s.size ∧
      (CSString.chars r s)[k]? = some (Char.ofNat 0xFFFD) := by
  have hchars : CSString.chars r s =
      (decode_utf16 us).map fun o => o.getD (Char.ofNat 0xFFFD) := by
    unfold CSString.chars
    rw [hus]
  obtain ⟨hklt, hgetk⟩ := List.getElem?_eq_some_iff.mp hk
  have hsplit : us.take k ++ u :: us.drop (k + 1) = us := by
    conv_rhs => rw [← List.take_append_drop k us, List.drop_eq_getElem_cons hklt]
    rw [hgetk]
  have hpre : ∀ x ∈ us.take k, x < 0xD800 ∨ 0xE000 ≤ x := by
    intro x hx
    obtain ⟨i, hxi⟩ := List.mem_iff_getElem?.mp hx
    have hik : i < k := by
      by_contra hik
      rw [List.getElem?_eq_none (by simp [List.length_take]; omega)] at hxi
      exact Option.noConfusion hxi
    rw [List.getElem?_take_of_lt hik] at hxi
    exact hother i x (by omega) hxi
  have hpost : ∀ x ∈ us.drop (k + 1), x < 0xD800 ∨ 0xE000 ≤ x := by
    intro x hx
    obtain ⟨j, hxj⟩ := List.mem_iff_getElem?.mp hx
    rw [dropGetElem us (k + 1) j] at hxj
    exact hother (k + 1 + j) x (by omega) hxj
  have hdec : decode_utf16 us =
      ((us.take k).map fun v => some (Char.ofNat v)) ++
        none :: ((us.drop (k + 1)).map fun v => some (Char.ofNat v)) := by
    conv_lhs => rw [← hsplit]
    exact decode_utf16_one_surrogate (us.take k) u (us.drop (k + 1)) hpre
      hsur1 hsur2 hpost
  have hlentake : (us.take k).length = k := by
    simp only [List.length_take]
    omega
  constructor
  · rw [hchars, hdec]
    simp only [List.length_map, List.length_append, List.length_cons,
      List.length_take, List.length_drop]
    omega
  · rw [hchars, hdec, List.map_append]
    rw [List.getElem?_append_right (by simp [hlentake])]
    have hmin : k ⊓ us.length = k := Nat.min_eq_left (Nat.le_of_lt hklt)
    simp [hlentake, hmin]

/-- C10, witness: the 3-unit string `[0x41, 0xD800, 0x42]` — one unpaired
high surrogate at position 1 — decodes to 3 characters with the replacement
character in the middle. -/
theorem C10_witness :
    (CSString.chars
        (⟨fun _ => none, fun _ => none,
          fun a => if a = 0x14 then some 0x41
            else if a = 0x16 then some 0xD800
            else if a = 0x18 then some 0x42 else none,
          fun _ => none⟩ : MemReader Nat) ⟨0, 3⟩).length = 3 ∧
      (CSString.chars
          (⟨fun _ => none, fun _ => none,
            fun a => if a = 0x14 then some 0x41
              else if a = 0x16 then some 0xD800
              else if a = 0x18 then some 0x42 else none,
            fun _ => none⟩ : MemReader Nat) ⟨0, 3⟩)[1]? =
        some (Char.ofNat 0xFFFD) :=
  C10_chars Nat
    ⟨fun _ => none, fun _ => none,
      fun a => if a = 0x14 then some 0x41
        else if a = 0x16 then some 0xD800
        else if a = 0x18 then some 0x42 else none,
      fun _ => none⟩ ⟨0, 3⟩ [0x41, 0xD800, 0x42] 1 0xD800
    (by decide) rfl rfl (by decide) (by decide)
    (by
      intro i v hik hiv
      match i with
      | 0 => simp at hiv; omega
      | 1 => exact absurd rfl hik
      | 2 => simp at hiv; omega
      | n + 3 => simp at hiv)

/-!
## Claim C8 (confirmed)
-/

/-- C8: compound-view resolution is all-or-nothing.  `List` resolution is
`none` exactly when the logical-size read, the backing-array-pointer read,
or the backing `Array` resolution fails; `Map` resolution is `none` exactly
when the logical-size read, the bucket-array-pointer read, or the bucket
`Array` resolution fails; `Set` resolution fails exactly when the underlying
`Map` resolution does.  No partially populated view is ever produced. -/
theorem C8_resolve_all_or_nothing :
    (∀ (ε : Type) (r : MemReader ε) (a : Nat),
        CsList.resolve r a = none ↔
          r.u32 (a + CsList.SIZE) = none ∨ r.u64 (a + CsList.ITEMS) = none ∨
            ∃ p, r.u64 (a + CsList.ITEMS) = some p ∧
              CsArray.resolve r p = none) ∧
      (∀ (κ υ : Type) (r : MemReader (Entry κ υ)) (a : Nat),
        CsMap.resolve r a = (none : Option (CsMap κ υ)) ↔
          r.u32 (a + CsMap.SIZE) = none ∨ r.u64 (a + CsMap.ENTRIES) = none ∨
            ∃ p, r.u64 (a + CsMap.ENTRIES) = some p ∧
              CsArray.resolve r p = none) ∧
      (∀ (τ : Type) (r : MemReader (Entry τ Unit)) (a : Nat),
        CsSet.resolve r a = (none : Option (CsSet τ)) ↔
          CsMap.resolve r a = (none : Option (CsMap τ Unit))) := by
  refine ⟨fun ε r a => ?_, fun κ υ r a => ?_, fun τ r a => ?_⟩
  · unfold CsList.resolve CsArray.resolve
    cases h32 : r.u32 (a + CsList.SIZE) with
    | none => simp
    | some s =>
      cases h64 : r.u64 (a + CsList.ITEMS) with
      | none => simp [h64]
      | some p =>
        cases harr : r.u32 (p + CsArray.SIZE) with
        | none => simp [h64, harr, CsArray.resolve]
        | some c => simp [h64, harr, CsArray.resolve]
  · unfold CsMap.resolve CsArray.resolve
    cases h32 : r.u32 (a + CsMap.SIZE) with
    | none => simp
    | some s =>
      cases h64 : r.u64 (a + CsMap.ENTRIES) with
      | none => simp [h64]
      | some p =>
        cases harr : r.u32 (p + CsArray.SIZE) with
        | none => simp [h64, harr, CsArray.resolve]
        | some c => simp [h64, harr, CsArray.resolve]
  · unfold CsSet.resolve
    cases h : CsMap.resolve r a <;> simp [h]

/-- C8, witness: a reader that maps no memory at all resolves every compound
view to absence. -/
theorem C8_witness :
    CsList.resolve
        (⟨fun _ => none, fun _ => none, fun _ => none, fun _ => none⟩ :
          MemReader Nat) 0 = none :=
  (C8_resolve_all_or_nothing.1 Nat
    ⟨fun _ => none, fun _ => none, fun _ => none, fun _ => none⟩ 0).mpr
    (Or.inl rfl)

/-!
## Claim C4 (corrected)
-/

/-- C4, counterexample to the claim as stated: both `Array::as_slice` and
`List::as_slice` (which delegates to it) re-read the length header field
through the reader at call time.  An `Array` resolved with cached size `1`
yields a 1-element slice or a 2-element slice depending solely on the header
value the reader returns *later*, even though the two readers agree on every
non-`u32` read; a `List` with cached logical size `1` over that array yields
its slice or hits the slice-bounds panic depending solely on the later
header value — so post-resolution operations do re-read a header field of
the target. -/
theorem C4_as_slice_counterexample :
    CsArray.resolve
        (⟨fun x => if x = 0x18 then some 1 else none, fun _ => none,
          fun _ => none, fun _ => none⟩ : MemReader Nat) 0 = some ⟨0, 1⟩ ∧
      CsArray.as_slice
          (⟨fun x => if x = 0x18 then some 1 else none, fun _ => none,
            fun _ => none, fun _ => none⟩ : MemReader Nat)
          (fun _ => 7) 4 ⟨0, 1⟩ = some [7] ∧
      CsArray.as_slice
          (⟨fun x => if x = 0x18 then some 2 else none, fun _ => none,
            fun _ => none, fun _ => none⟩ : MemReader Nat)
          (fun _ => 7) 4 ⟨0, 1⟩ = some [7, 7] ∧
      CsArray.as_slice
          (⟨fun x => if x = 0x18 then some 1 else none, fun _ => none,
            fun _ => none, fun _ => none⟩ : MemReader Nat)
          (fun _ => 7) 4 ⟨0, 1⟩ ≠
        CsArray.as_slice
          (⟨fun x => if x = 0x18 then some 2 else none, fun _ => none,
            fun _ => none, fun _ => none⟩ : MemReader Nat)
          (fun _ => 7) 4 ⟨0, 1⟩ ∧
      CsList.as_slice
          (⟨fun x => if x = 0x18 then some 1 else none, fun _ => none,
            fun _ => none, fun _ => none⟩ : MemReader Nat)
          (fun _ => 7) 4 ⟨0, ⟨0, 1⟩, 1⟩ = .ok [7] ∧
      CsList.as_slice
          (⟨fun x => if x = 0x18 then some 0 else none, fun _ => none,
            fun _ => none, fun _ => none⟩ : MemReader Nat)
          (fun _ => 7) 4 ⟨0, ⟨0, 1⟩, 1⟩ = .panicked ∧
      CsList.as_slice
          (⟨fun x => if x = 0x18 then some 1 else none, fun _ => none,
            fun _ => none, fun _ => none⟩ : MemReader Nat)
          (fun _ => 7) 4 ⟨0, ⟨0, 1⟩, 1⟩ ≠
        CsList.as_slice
          (⟨fun x => if x = 0x18 then some 0 else none, fun _ => none,
            fun _ => none, fun _ => none⟩ : MemReader Nat)
          (fun _ => 7) 4 ⟨0, ⟨0, 1⟩, 1⟩ :=
  ⟨rfl, rfl, rfl, by decide, rfl, rfl, by decide⟩

/-- C4, amended: every view's header-derived size is read exactly once at
resolution time — `resolve` depends only on the single header read — and
every post-resolution operation *except* the `as_slice` pair consults only
the cached size: `iter`, `get`, `chars` and the `List`/`Map`/`Set`
iteration/get operations are invariant under arbitrary changes to the
reader's header-reading (`u32`/`u64`) components.  `Array::as_slice`, and
`List::as_slice` which delegates to it, are the exception: they re-read the
length header at call time, so neither is invariant under changes to the
header-reading components (the final two conjuncts). -/
theorem C4_size_cached :
    (∀ (ε : Type) (r r' : MemReader ε) (a : Nat),
        r.u32 (a + CsArray.SIZE) = r'.u32 (a + CsArray.SIZE) →
        CsArray.resolve r a = CsArray.resolve r' a) ∧
      (∀ (ε : Type) (r r' : MemReader ε) (a : Nat),
        r.u32 (a + CSString.SIZE) = r'.u32 (a + CSString.SIZE) →
        CSString.resolve r a = CSString.resolve r' a) ∧
      (∀ (ε : Type) (r r' : MemReader ε) (sz : Nat) (a : CsArray),
        r.elem = r'.elem →
        CsArray.iterList r sz a = CsArray.iterList r' sz a ∧
          ∀ i, CsArray.get r sz a i = CsArray.get r' sz a i) ∧
      (∀ (ε ε' : Type) (r : MemReader ε) (r' : MemReader ε') (s : CSString),
        r.u16 = r'.u16 → CSString.chars r s = CSString.chars r' s) ∧
      (∀ (ε : Type) (r r' : MemReader ε) (sz : Nat) (l : CsList),
        r.elem = r'.elem →
        CsList.iterList r sz l = CsList.iterList r' sz l ∧
          ∀ i, CsList.get r sz l i = CsList.get r' sz l i) ∧
      (∀ (κ υ : Type) (r r' : MemReader (Entry κ υ)) (sz : Nat)
          (m : CsMap κ υ), r.elem = r'.elem →
        CsMap.iterList r sz m = CsMap.iterList r' sz m) ∧
      (∀ (τ : Type) (r r' : MemReader (Entry τ Unit)) (sz : Nat)
          (s : CsSet τ), r.elem = r'.elem →
        CsSet.iterList r sz s = CsSet.iterList r' sz s) ∧
      ¬(∀ (r r' : MemReader Nat) (mem : Nat → Nat) (sz : Nat) (a : CsArray),
        r.elem = r'.elem → r.u16 = r'.u16 → r.u64 = r'.u64 →
        CsArray.as_slice r mem sz a = CsArray.as_slice r' mem sz a) ∧
      ¬(∀ (r r' : MemReader Nat) (mem : Nat → Nat) (sz : Nat) (l : CsList),
        r.elem = r'.elem → r.u16 = r'.u16 → r.u64 = r'.u64 →
        CsList.as_slice r mem sz l = CsList.as_slice r' mem sz l) := by
  have harr : ∀ (ε : Type) (r r' : MemReader ε) (sz : Nat) (a : CsArray),
      r.elem = r'.elem → CsArray.iterList r sz a = CsArray.iterList r' sz a := by
    intro ε r r' sz a h
    unfold CsArray.iterList
    rw [h]
  refine ⟨?_, ?_, ?_, ?_, ?_, ?_, ?_, ?_, ?_⟩
  · intro ε r r' a h
    unfold CsArray.resolve
    rw [h]
  · intro ε r r' a h
    unfold CSString.resolve
    rw [h]
  · intro ε r r' sz a h
    exact ⟨harr ε r r' sz a h, fun i => by unfold CsArray.get; rw [h]⟩
  · intro ε ε' r r' s h
    unfold CSString.chars
    rw [h]
  · intro ε r r' sz l h
    refine ⟨?_, fun i => by unfold CsList.get CsArray.get; rw [h]⟩
    unfold CsList.iterList
    rw [harr ε r r' sz l.items h]
  · intro κ υ r r' sz m h
    unfold CsMap.iterList
    rw [harr _ r r' sz m.entries h]
  · intro τ r r' sz s h
    unfold CsSet.iterList CsMap.iterList
    rw [harr _ r r' sz s.map.entries h]
  · intro hall
    have h := hall
      ⟨fun x => if x = 0x18 then some 1 else none, fun _ => none,
        fun _ => none, fun _ => none⟩
      ⟨fun x => if x = 0x18 then some 2 else none, fun _ => none,
        fun _ => none, fun _ => none⟩
      (fun _ => 7) 4 ⟨0, 1⟩ rfl rfl rfl
    exact absurd h (by decide)
  · intro hall
    have h := hall
      ⟨fun x => if x = 0x18 then some 1 else none, fun _ => none,
        fun _ => none, fun _ => none⟩
      ⟨fun x => if x = 0x18 then some 0 else none, fun _ => none,
        fun _ => none, fun _ => none⟩
      (fun _ => 7) 4 ⟨0, ⟨0, 1⟩, 1⟩ rfl rfl rfl
    exact absurd h (by decide)

/-- C4, witness: a concrete array's `iter` result is unchanged when the
header-reading component of the reader is replaced wholesale. -/
theorem C4_witness :
    CsArray.iterList
        (⟨fun x => if x = 0x18 then some 3 else none, fun _ => none,
          fun _ => none, fun x => some x⟩ : MemReader Nat) 4 ⟨0, 3⟩ =
      CsArray.iterList
        (⟨fun _ => none, fun _ => some 9, fun _ => none, fun x => some x⟩ :
          MemReader Nat) 4 ⟨0, 3⟩ :=
  ((C4_size_cached.2.2.1 Nat
    ⟨fun x => if x = 0x18 then some 3 else none, fun _ => none,
      fun _ => none, fun x => some x⟩
    ⟨fun _ => none, fun _ => some 9, fun _ => none, fun x => some x⟩
    4 ⟨0, 3⟩ rfl).1)

/-!
## Claim C5 (confirmed)
-/

/-- C5: for a `Map` (and `Set`) whose bucket array reads back as the entries
`g 0, …, g (c-1)` in bucket (address) order, `iter` yields exactly the live
entries — every entry with `hash == 0 && next == 0` is skipped — in bucket
order, capped at the header's cached `size`: when at most `size` live
entries exist it yields exactly all of them, and it never yields more than
`size` pairs even if more live entries exist.  `Set::iter` is `Map::iter`
projected to keys. -/
theorem C5_map_iter (κ υ : Type) (r : MemReader (Entry κ υ)) (sz : Nat)
    (m : CsMap κ υ) (g : Nat → Entry κ υ) (hsz : 1 ≤ sz)
    (h : ∀ i, i < m.entries.size →
      r.elem (m.entries.addr + CsArray.DATA + i * sz) = some (g i)) :
    CsMap.iterList r sz m =
        ((((List.range m.entries.size).map g).filter
            fun e => e._hash != 0 || e._next != 0).take m.size).map
          (fun e => (e.key, e.value)) ∧
      (CsMap.iterList r sz m).length ≤ m.size ∧
      ((((List.range m.entries.size).map g).filter
          fun e => e._hash != 0 || e._next != 0).length ≤ m.size →
        CsMap.iterList r sz m =
          (((List.range m.entries.size).map g).filter
              fun e => e._hash != 0 || e._next != 0).map
            (fun e => (e.key, e.value))) ∧
      (∀ (τ : Type) (r' : MemReader (Entry τ Unit)) (sz' : Nat) (s : CsSet τ),
        CsSet.iterList r' sz' s =
          (CsMap.iterList r' sz' s.map).map Prod.fst) := by
  have hentries := CsArray.iterList_spec r sz m.entries g hsz h
  have hmain : CsMap.iterList r sz m =
      ((((List.range m.entries.size).map g).filter
          fun e => e._hash != 0 || e._next != 0).take m.size).map
        (fun e => (e.key, e.value)) := by
    unfold CsMap.iterList
    rw [hentries]
  refine ⟨hmain, ?_, ?_, fun τ r' sz' s => rfl⟩
  · rw [hmain]
    simp only [List.length_map, List.length_take]
    omega
  · intro hle
    rw [hmain, List.take_of_length_le hle]

/-- C5, witness: a bucket array with one tombstone and two live entries,
under a header size of `1`: `iter` yields the first live entry only. -/
theorem C5_witness :
    CsMap.iterList
        (⟨fun _ => none, fun _ => none, fun _ => none,
          fun a => if a = 0x20 then some ⟨0, 0, 1, 10⟩
            else if a = 0x30 then some ⟨5, 0, 2, 20⟩
            else if a = 0x40 then some ⟨0, 3, 3, 30⟩
            else none⟩ : MemReader (Entry Nat Nat)) 16 ⟨0, ⟨0, 3⟩, 1⟩ =
      ((((List.range 3).map fun i =>
            if i = 0 then (⟨0, 0, 1, 10⟩ : Entry Nat Nat)
            else if i = 1 then ⟨5, 0, 2, 20⟩ else ⟨0, 3, 3, 30⟩).filter
          fun e => e._hash != 0 || e._next != 0).take 1).map
        (fun e => (e.key, e.value)) :=
  (C5_map_iter Nat Nat
    ⟨fun _ => none, fun _ => none, fun _ => none,
      fun a => if a = 0x20 then some ⟨0, 0, 1, 10⟩
        else if a = 0x30 then some ⟨5, 0, 2, 20⟩
        else if a = 0x40 then some ⟨0, 3, 3, 30⟩
        else none⟩ 16 ⟨0, ⟨0, 3⟩, 1⟩
    (fun i => if i = 0 then ⟨0, 0, 1, 10⟩
      else if i = 1 then ⟨5, 0, 2, 20⟩ else ⟨0, 3, 3, 30⟩)
    (by decide) (by decide)).1

/-!
## Binding-cache lemmas (for claims C2 and C7)
-/

/-- Every cache slot of a fresh binding is empty. -/
theorem countP_isNone_replicate :
    ∀ n : Nat, (List.replicate n (none : Option Nat)).countP (fun o => o.isNone) = n := by
  intro n
  induction n with
  | zero => rfl
  | succ n ih => simp [List.replicate_succ, List.countP_cons, ih]

/-- A field-lookup pass over fully-cached slots performs zero lookups and
returns the cached offsets unchanged. -/
theorem lookupFields_cached (env : BindEnv) :
    ∀ (offs : List Nat) (idx : Nat),
      lookupFields env idx (offs.map some) = (.ok offs, offs.map some, 0) := by
  intro offs
  induction offs with
  | nil => intro idx; rfl
  | cons v vs ih =>
    intro idx
    simp [lookupFields, ih (idx + 1)]


/-- A successful field-lookup pass fills every cache slot with the returned
offsets and performs exactly one lookup per slot that was empty. -/
theorem lookupFields_ok (env : BindEnv) :
    ∀ (caches : List (Option Nat)) (idx : Nat) (offs : List Nat)
      (caches' : List (Option Nat)) (k : Nat),
      lookupFields env idx caches = (.ok offs, caches', k) →
      caches' = offs.map some ∧ k = caches.countP (fun o => o.isNone) := by
  intro caches
  induction caches with
  | nil =>
    intro idx offs caches' k h
    simp only [lookupFields, Prod.mk.injEq, RRes.ok.injEq] at h
    obtain ⟨h1, h2, h3⟩ := h
    subst h1; subst h2; subst h3
    simp
  | cons c rest ih =>
    intro idx offs caches' k h
    cases c with
    | some v =>
      simp only [lookupFields] at h
      rcases hres : lookupFields env (idx + 1) rest with ⟨res, rest', k'⟩
      rw [hres] at h
      cases res with
      | ok vs =>
        simp only [Prod.mk.injEq, RRes.ok.injEq] at h
        obtain ⟨h1, h2, h3⟩ := h
        obtain ⟨hc, hk⟩ := ih (idx + 1) vs rest' k' hres
        subst h1; subst h2; subst h3; subst hc; subst hk
        simp [List.countP_cons]
      | absent => simp at h
      | panicked => simp at h
    | none =>
      cases hgf : env.get_field idx with
      | none =>
        simp only [lookupFields, hgf] at h
        simp at h
      | some off =>
        simp only [lookupFields, hgf] at h
        by_cases hoff : off = 0
        · rw [if_pos hoff] at h
          simp at h
        · rw [if_neg hoff] at h
          rcases hres : lookupFields env (idx + 1) rest with ⟨res, rest', k'⟩
          rw [hres] at h
          cases res with
          | ok vs =>
            simp only [Prod.mk.injEq, RRes.ok.injEq] at h
            obtain ⟨h1, h2, h3⟩ := h
            obtain ⟨hc, hk⟩ := ih (idx + 1) vs rest' k' hres
            subst h1; subst h2; subst h3; subst hc; subst hk
            simp [List.countP_cons]
          | absent => simp at h
          | panicked => simp at h

/-- Over a fresh (all-empty) cache, a lookup pass whose first `j` lookups
succeed with non-zero offsets and whose `j`-th lookup fails returns absence,
caches exactly the first `j` offsets, leaves slot `j` (and all later slots)
empty, and performs exactly `j + 1` lookups. -/
theorem lookupFields_fail (env : BindEnv) :
    ∀ (j m idx : Nat), j < m →
      (∀ i, i < j → ∃ v, env.get_field (idx + i) = some (v + 1)) →
      env.get_field (idx + j) = none →
      lookupFields env idx (List.replicate m none) =
        (.absent,
          (List.range j).map (fun i => env.get_field (idx + i)) ++
            List.replicate (m - j) none,
          j + 1) := by
  intro j
  induction j with
  | zero =>
    intro m idx hjm h hj
    obtain ⟨m', rfl⟩ : ∃ m', m = m' + 1 := ⟨m - 1, by omega⟩
    simp only [Nat.add_zero] at hj
    simp only [List.replicate_succ, lookupFields, hj]
    simp [List.replicate_succ]
  | succ j ih =>
    intro m idx hjm h hj
    obtain ⟨m', rfl⟩ : ∃ m', m = m' + 1 := ⟨m - 1, by omega⟩
    obtain ⟨v, hv⟩ := h 0 (by omega)
    simp only [Nat.add_zero] at hv
    have hrec := ih m' (idx + 1) (by omega)
      (fun i hi => by
        obtain ⟨w, hw⟩ := h (i + 1) (by omega)
        exact ⟨w, by rw [show idx + 1 + i = idx + (i + 1) from by omega]; exact hw⟩)
      (by rw [show idx + 1 + j = idx + (j + 1) from by omega]; exact hj)
    simp only [List.replicate_succ, lookupFields, hv]
    rw [if_neg (by omega), hrec]
    simp only []
    refine congrArg (fun l => (RRes.absent, l, j + 1 + 1)) ?_
    rw [List.range_succ_eq_map, List.map_cons, List.map_map, List.cons_append,
      show (m' + 1 - (j + 1)) = m' - j from by omega]
    congr 1
    · simp [hv]
    · have hfun : (fun i => env.get_field (idx + 1 + i)) =
          ((fun i => env.get_field (idx + i)) ∘ Nat.succ) := by
        funext i
        simp only [Function.comp_apply]
        congr 1
        omega
      rw [hfun]

/-- Over a fresh cache, a lookup pass whose first `j` lookups succeed with
non-zero offsets and whose `j`-th lookup resolves to offset zero halts with
the fatal assertion. -/
theorem lookupFields_panic (env : BindEnv) :
    ∀ (j m idx : Nat), j < m →
      (∀ i, i < j → ∃ v, env.get_field (idx + i) = some (v + 1)) →
      env.get_field (idx + j) = some 0 →
      (lookupFields env idx (List.replicate m none)).1 = .panicked := by
  intro j
  induction j with
  | zero =>
    intro m idx hjm h hj
    obtain ⟨m', rfl⟩ : ∃ m', m = m' + 1 := ⟨m - 1, by omega⟩
    simp only [Nat.add_zero] at hj
    simp only [List.replicate_succ, lookupFields, hj]
    simp
  | succ j ih =>
    intro m idx hjm h hj
    obtain ⟨m', rfl⟩ : ∃ m', m = m' + 1 := ⟨m - 1, by omega⟩
    obtain ⟨v, hv⟩ := h 0 (by omega)
    simp only [Nat.add_zero] at hv
    have hrec := ih m' (idx + 1) (by omega)
      (fun i hi => by
        obtain ⟨w, hw⟩ := h (i + 1) (by omega)
        exact ⟨w, by rw [show idx + 1 + i = idx + (i + 1) from by omega]; exact hw⟩)
      (by rw [show idx + 1 + j = idx + (j + 1) from by omega]; exact hj)
    simp only [List.replicate_succ, lookupFields, hv]
    rw [if_neg (by omega)]
    rcases hres : lookupFields env (idx + 1) (List.replicate m' none) with ⟨res, rest', k'⟩
    rw [hres] at hrec
    simp only at hrec
    subst hrec
    simp

/-- If no field lookup ever resolves to offset zero, a lookup pass never
halts with the fatal assertion, whatever the cache contents. -/
theorem lookupFields_no_zero (env : BindEnv)
    (hz : ∀ i, env.get_field i ≠ some 0) :
    ∀ (caches : List (Option Nat)) (idx : Nat),
      (lookupFields env idx caches).1 ≠ .panicked := by
  intro caches
  induction caches with
  | nil => intro idx; simp [lookupFields]
  | cons c rest ih =>
    intro idx
    cases c with
    | some v =>
      simp only [lookupFields]
      rcases hres : lookupFields env (idx + 1) rest with ⟨res, rest', k'⟩
      have hne := ih (idx + 1)
      rw [hres] at hne
      cases res with
      | ok vs => simp
      | absent => simp
      | panicked => simp at hne
    | none =>
      cases hgf : env.get_field idx with
      | none => simp [lookupFields, hgf]
      | some off =>
        have hoff : off ≠ 0 := fun h0 => hz idx (by rw [hgf, h0])
        simp only [lookupFields, hgf]
        rw [if_neg hoff]
        rcases hres : lookupFields env (idx + 1) rest with ⟨res, rest', k'⟩
        have hne := ih (idx + 1)
        rw [hres] at hne
        cases res with
        | ok vs => simp
        | absent => simp
        | panicked => simp at hne

/-!
## Claim C2 (confirmed)
-/

/-- C2: a generated binding caches the class handle and each field's
resolved offset on first successful lookup and never looks them up again;
a failed lookup leaves its cache slot empty (while earlier successful slots
stay cached) so the next `read` retries it.  Consequently a successful
`read` on a fresh binding performs exactly one class lookup and one field
lookup per field, and an immediately following `read` performs zero
reflection lookups and returns the same value. -/
theorem C2_binding_caching :
    (∀ (env : BindEnv) (n inst : Nat) (vals : List Nat) (st1 : BindingState)
        (cnt : Nat × Nat),
        bindingRead env (BindingState.bind n) inst = (.ok vals, st1, cnt) →
        cnt = (1, n) ∧ bindingRead env st1 inst = (.ok vals, st1, (0, 0))) ∧
      (∀ (env : BindEnv) (n inst : Nat), env.getClass = none →
        bindingRead env (BindingState.bind n) inst =
          (.absent, BindingState.bind n, (1, 0))) ∧
      (∀ (env : BindEnv) (n inst j c : Nat), env.getClass = some c → j < n →
        (∀ i, i < j → ∃ v, env.get_field i = some (v + 1)) →
        env.get_field j = none →
        (bindingRead env (BindingState.bind n) inst).1 = .absent ∧
          ((bindingRead env (BindingState.bind n) inst).2.1.fields)[j]? =
            some none ∧
          (∀ i, i < j →
            ((bindingRead env (BindingState.bind n) inst).2.1.fields)[i]? =
              some (env.get_field i))) := by
  refine ⟨?_, ?_, ?_⟩
  · intro env n inst vals st1 cnt h
    cases hgc : env.getClass with
    | none =>
      simp only [bindingRead, classStep, BindingState.bind, hgc] at h
      simp at h
    | some c =>
      rcases hlf : lookupFields env 0 (List.replicate n none) with ⟨res, caches, fk⟩
      cases res with
      | ok offs =>
        obtain ⟨hc, hk⟩ := lookupFields_ok env (List.replicate n none) 0 offs caches fk hlf
        cases hrf : readFields env inst offs with
        | none =>
          simp only [bindingRead, classStep, BindingState.bind, hgc, hlf, hrf] at h
          simp at h
        | some vals' =>
          simp only [bindingRead, classStep, BindingState.bind, hgc, hlf, hrf] at h
          simp only [Prod.mk.injEq, RRes.ok.injEq] at h
          obtain ⟨hv, hst, hcnt⟩ := h
          subst hv
          subst hc
          subst hk
          constructor
          · rw [← hcnt, countP_isNone_replicate n]
          · rw [← hst]
            simp [bindingRead, classStep, lookupFields_cached env offs 0, hrf]
      | absent =>
        simp only [bindingRead, classStep, BindingState.bind, hgc, hlf] at h
        simp at h
      | panicked =>
        simp only [bindingRead, classStep, BindingState.bind, hgc, hlf] at h
        simp at h
  · intro env n inst hgc
    simp [bindingRead, classStep, BindingState.bind, hgc]
  · intro env n inst j c hgc hjn h hj
    have hlf := lookupFields_fail env j n 0 hjn
      (fun i hi => by simpa using h i hi) (by simpa using hj)
    simp only [Nat.zero_add] at hlf
    have hread : bindingRead env (BindingState.bind n) inst =
        (.absent,
          ⟨some c,
            (List.range j).map (fun i => env.get_field i) ++
              List.replicate (n - j) none⟩,
          (1, j + 1)) := by
      simp [bindingRead, classStep, BindingState.bind, hgc, hlf]
    rw [hread]
    refine ⟨rfl, ?_, ?_⟩
    · show ((List.range j).map (fun i => env.get_field i) ++
        List.replicate (n - j) none)[j]? = some none
      rw [List.getElem?_append_right (by simp)]
      simp only [List.length_map, List.length_range]
      rw [Nat.sub_self]
      exact List.getElem?_replicate_of_lt (by omega)
    · intro i hi
      show ((List.range j).map (fun i => env.get_field i) ++
        List.replicate (n - j) none)[i]? = some (env.get_field i)
      rw [List.getElem?_append_left (by simp [hi])]
      simp [hi]

/-- C2, witness: a two-field binding whose first `read` succeeded (with one
class lookup and two field lookups) re-reads with zero lookups and the same
result. -/
theorem C2_witness :
    bindingRead ⟨some 5, fun i => some (8 + i), fun a => some a⟩
        (⟨some 5, [some 8, some 9]⟩ : BindingState) 100 =
      (.ok [108, 109], ⟨some 5, [some 8, some 9]⟩, (0, 0)) :=
  (C2_binding_caching.1 ⟨some 5, fun i => some (8 + i), fun a => some a⟩ 2 100
    [108, 109] ⟨some 5, [some 8, some 9]⟩ (1, 2) (by decide)).2

/-!
## Claim C7 (confirmed)
-/

/-- C7: during a binding's `read`, a plain-field reflection lookup that
resolves to offset exactly zero halts with the fatal assertion (never
absence); and if no lookup ever resolves to zero, the assertion never
fires. -/
theorem C7_offset_zero :
    (∀ (env : BindEnv) (n inst j c : Nat), env.getClass = some c → j < n →
        (∀ i, i < j → ∃ v, env.get_field i = some (v + 1)) →
        env.get_field j = some 0 →
        (bindingRead env (BindingState.bind n) inst).1 = .panicked) ∧
      (∀ (env : BindEnv) (st : BindingState) (inst : Nat),
        (∀ i, env.get_field i ≠ some 0) →
        (bindingRead env st inst).1 ≠ .panicked) := by
  constructor
  · intro env n inst j c hgc hjn h hj
    have hp := lookupFields_panic env j n 0 hjn
      (fun i hi => by simpa using h i hi) (by simpa using hj)
    rcases hlf : lookupFields env 0 (List.replicate n none) with ⟨res, caches, fk⟩
    rw [hlf] at hp
    simp only at hp
    subst hp
    simp [bindingRead, classStep, BindingState.bind, hgc, hlf]
  · intro env st inst hz
    rcases hcs : classStep env st with ⟨copt, st1, ck⟩
    cases copt with
    | none => simp [bindingRead, hcs]
    | some c =>
      rcases hlf : lookupFields env 0 st1.fields with ⟨res, caches, fk⟩
      have hnp := lookupFields_no_zero env hz st1.fields 0
      rw [hlf] at hnp
      cases res with
      | ok offs =>
        cases hrf : readFields env inst offs with
        | none => simp [bindingRead, hcs, hlf, hrf]
        | some vals => simp [bindingRead, hcs, hlf, hrf]
      | absent => simp [bindingRead, hcs, hlf]
      | panicked => simp at hnp

/-- C7, witness: a binding whose second field's lookup resolves to offset
zero halts with the fatal assertion on `read`. -/
theorem C7_witness :
    (bindingRead
        ⟨some 1, fun i => if i = 0 then some 3 else some 0, fun a => some a⟩
        (BindingState.bind 2) 0).1 = .panicked :=
  C7_offset_zero.1
    ⟨some 1, fun i => if i = 0 then some 3 else some 0, fun a => some a⟩
    2 0 1 1 rfl (by omega)
    (fun i hi => by
      have hi0 : i = 0 := by omega
      subst hi0
      exact ⟨2, rfl⟩)
    rfl

/-!
## Claim C9 (confirmed)
-/

/-- The acceptance condition the field loop of `inner::process` computes,
threaded through the loop's "a singleton was already collected" state. -/
def okSpec : List FieldFlags → Bool → Bool
  | [], _ => true
  | f :: rest, seen =>
    if f.is_singleton && f.is_static then false
    else if f.is_singleton && seen then false
    else okSpec rest (seen || f.is_singleton)

/-- The field loop succeeds exactly when `okSpec` accepts, with the
already-collected non-static specs supplying the initial singleton-seen
state. -/
theorem processFields_ok_iff :
    ∀ (fields ss ns : List FieldFlags),
      (∃ p, processFields fields ss ns = .ok p) ↔
        okSpec fields (ns.any (fun o => o.is_singleton)) = true := by
  intro fields
  induction fields with
  | nil =>
    intro ss ns
    simp [processFields, okSpec]
  | cons f rest ih =>
    intro ss ns
    by_cases h1 : (f.is_singleton && f.is_static) = true
    · simp [processFields, okSpec, h1]
    · have h1' : (f.is_singleton && f.is_static) = false := by
        cases hx : (f.is_singleton && f.is_static)
        · rfl
        · exact absurd hx h1
      by_cases h2 : (f.is_singleton && ns.any (fun o => o.is_singleton)) = true
      · simp [processFields, okSpec, h1', h2]
      · have h2' : (f.is_singleton && ns.any (fun o => o.is_singleton)) = false := by
          cases hx : (f.is_singleton && ns.any (fun o => o.is_singleton))
          · rfl
          · exact absurd hx h2
        by_cases h3 : f.is_static = true
        · have hsing : f.is_singleton = false := by
            cases hs : f.is_singleton
            · rfl
            · rw [hs, h3] at h1
              exact absurd (by simp) h1
          simp [processFields, okSpec, h1', h2', h3, hsing, ih (ss ++ [f]) ns]
        · have hst : f.is_static = false := by
            cases hx : f.is_static
            · rfl
            · exact absurd hx h3
          simp [processFields, okSpec, h1', h2', hst, ih ss (ns ++ [f])]

/-- On success, the field loop partitions the fields into the static and
non-static specs, in order. -/
theorem processFields_ok_val :
    ∀ (fields ss ns ss' ns' : List FieldFlags),
      processFields fields ss ns = .ok (ss', ns') →
      ss' = ss ++ fields.filter (fun f => f.is_static) ∧
        ns' = ns ++ fields.filter (fun f => !f.is_static) := by
  intro fields
  induction fields with
  | nil =>
    intro ss ns ss' ns' h
    simp only [processFields, Except.ok.injEq, Prod.mk.injEq] at h
    obtain ⟨h1, h2⟩ := h
    subst h1
    subst h2
    simp
  | cons f rest ih =>
    intro ss ns ss' ns' h
    by_cases h1 : (f.is_singleton && f.is_static) = true
    · simp [processFields, h1] at h
    · have h1' : (f.is_singleton && f.is_static) = false := by
        cases hx : (f.is_singleton && f.is_static)
        · rfl
        · exact absurd hx h1
      by_cases h2 : (f.is_singleton && ns.any (fun o => o.is_singleton)) = true
      · simp [processFields, h1', h2] at h
      · have h2' : (f.is_singleton && ns.any (fun o => o.is_singleton)) = false := by
          cases hx : (f.is_singleton && ns.any (fun o => o.is_singleton))
          · rfl
          · exact absurd hx h2
        by_cases h3 : f.is_static = true
        · have hsing : f.is_singleton = false := by
            cases hs : f.is_singleton
            · rfl
            · rw [hs, h3] at h1
              exact absurd (by simp) h1
          simp only [processFields, hsing, h3, Bool.false_and,
            Bool.false_eq_true, if_false, if_true] at h
          obtain ⟨ha, hb⟩ := ih (ss ++ [f]) ns ss' ns' h
          subst ha
          subst hb
          constructor
          · simp [List.filter_cons, h3]
          · simp [List.filter_cons, h3]
        · have hst : f.is_static = false := by
            cases hx : f.is_static
            · rfl
            · exact absurd hx h3
          simp only [processFields, h2', hst, Bool.and_false,
            Bool.false_eq_true, if_false] at h
          obtain ⟨ha, hb⟩ := ih ss (ns ++ [f]) ss' ns' h
          subst ha
          subst hb
          constructor
          · simp [List.filter_cons, hst]
          · simp [List.filter_cons, hst]

/-- `okSpec` accepts exactly when no field is both static and singleton and
the singleton count (plus one if a singleton was already seen) is at most
one. -/
theorem okSpec_iff :
    ∀ (fields : List FieldFlags) (seen : Bool),
      okSpec fields seen = true ↔
        ((∀ f ∈ fields, ¬(f.is_static = true ∧ f.is_singleton = true)) ∧
          fields.countP (fun f => f.is_singleton) +
            (if seen then 1 else 0) ≤ 1) := by
  intro fields
  induction fields with
  | nil =>
    intro seen
    cases seen <;> simp [okSpec]
  | cons f rest ih =>
    intro seen
    cases hsg : f.is_singleton with
    | false =>
      simp [okSpec, hsg, List.countP_cons, ih seen]
    | true =>
      cases hst : f.is_static with
      | true =>
        have hns : okSpec (f :: rest) seen = false := by
          simp [okSpec, hsg, hst]
        rw [hns]
        constructor
        · intro h
          exact absurd h (by simp)
        · rintro ⟨hall, _⟩
          exact absurd ⟨hst, hsg⟩ (hall f (List.mem_cons_self f rest))
      | false =>
        cases hseen : seen with
        | true =>
          have hns : okSpec (f :: rest) true = false := by
            simp [okSpec, hsg, hst]
          rw [hns]
          constructor
          · intro h
            exact absurd h (by simp)
          · rintro ⟨_, hcnt⟩
            rw [List.countP_cons] at hcnt
            simp only [hsg, if_true] at hcnt
            omega
        | false =>
          have hns : okSpec (f :: rest) false = okSpec rest true := by
            simp [okSpec, hsg, hst]
          rw [hns, ih true]
          have h2' : List.countP (fun f => f.is_singleton) (f :: rest) =
              List.countP (fun f => f.is_singleton) rest + 1 := by
            simp [List.countP_cons, hsg]
          constructor
          · rintro ⟨hall, hcnt⟩
            refine ⟨?_, ?_⟩
            · intro g hg
              rcases List.mem_cons.mp hg with rfl | hg'
              · rintro ⟨hgs, _⟩
                rw [hst] at hgs
                exact absurd hgs (by simp)
              · exact hall g hg'
            · have h1' : List.countP (fun f => f.is_singleton) rest + 1 ≤ 1 := by
                simpa using hcnt
              rw [h2']
              simpa using h1'
          · rintro ⟨hall, hcnt⟩
            refine ⟨fun g hg => hall g (List.mem_cons_of_mem f hg), ?_⟩
            rw [h2'] at hcnt
            have h1' : List.countP (fun f => f.is_singleton) rest + 1 ≤ 1 := by
              simpa using hcnt
            simpa using h1'

/-- C9: binding generation accepts a field set exactly when it is not a mix
of static and non-static fields, no field is marked both static and
singleton, and at most one field is marked singleton — so each of the three
violations is rejected with a generation-time error, and every field set
violating none of them generates successfully. -/
theorem C9_generation (fields : List FieldFlags) :
    processStruct fields = .ok () ↔
      (¬((∃ f ∈ fields, f.is_static = true) ∧
          (∃ f ∈ fields, f.is_static = false)) ∧
        (∀ f ∈ fields, ¬(f.is_static = true ∧ f.is_singleton = true)) ∧
        fields.countP (fun f => f.is_singleton) ≤ 1) := by
  have hok := processFields_ok_iff fields [] []
  simp only [List.any_nil] at hok
  rw [okSpec_iff fields false] at hok
  simp only [if_neg (by simp : ¬(false : Bool) = true), Nat.add_zero] at hok
  cases hpf : processFields fields [] [] with
  | error e =>
    have hps : processStruct fields = .error e := by
      unfold processStruct
      rw [hpf]
    rw [hps]
    constructor
    · intro h
      exact absurd h (by simp)
    · rintro ⟨_, hall, hcnt⟩
      have hex : ∃ p, processFields fields [] [] = Except.ok p :=
        hok.mpr ⟨hall, hcnt⟩
      rw [hpf] at hex
      obtain ⟨p, hp⟩ := hex
      exact absurd hp (by simp)
  | ok p =>
    obtain ⟨hall, hcnt⟩ := hok.mp ⟨p, hpf⟩
    obtain ⟨hss, hns⟩ := processFields_ok_val fields [] [] p.1 p.2 (by rw [hpf])
    simp only [List.nil_append] at hss hns
    have hps : processStruct fields =
        (if !p.1.isEmpty && !p.2.isEmpty then .error .mixedFields
         else .ok ()) := by
      unfold processStruct
      rw [hpf]
    rw [hps]
    by_cases hmix : (!p.1.isEmpty && !p.2.isEmpty) = true
    · rw [if_pos hmix]
      simp only [Bool.and_eq_true, Bool.not_eq_true'] at hmix
      obtain ⟨hs1, hs2⟩ := hmix
      constructor
      · intro h
        exact absurd h (by simp)
      · rintro ⟨hnomix, _, _⟩
        exfalso
        apply hnomix
        constructor
        · have hne : p.1 ≠ [] := by
            intro hnil
            rw [hnil] at hs1
            simp at hs1
          obtain ⟨g, hg⟩ := List.exists_mem_of_ne_nil _ hne
          rw [hss] at hg
          exact ⟨g, List.mem_of_mem_filter hg, List.of_mem_filter hg⟩
        · have hne : p.2 ≠ [] := by
            intro hnil
            rw [hnil] at hs2
            simp at hs2
          obtain ⟨g, hg⟩ := List.exists_mem_of_ne_nil _ hne
          rw [hns] at hg
          have hgp := List.of_mem_filter hg
          simp only [Bool.not_eq_true'] at hgp
          exact ⟨g, List.mem_of_mem_filter hg, hgp⟩
    · rw [if_neg hmix]
      constructor
      · intro _
        refine ⟨?_, hall, hcnt⟩
        rintro ⟨⟨g1, hg1, hg1s⟩, ⟨g2, hg2, hg2s⟩⟩
        apply hmix
        simp only [Bool.and_eq_true, Bool.not_eq_true']
        constructor
        · have hmem : g1 ∈ fields.filter (fun f => f.is_static) :=
            List.mem_filter.mpr ⟨hg1, hg1s⟩
          rw [← hss] at hmem
          cases hE : p.1.isEmpty
          · rfl
          · rw [List.isEmpty_eq_true] at hE
            rw [hE] at hmem
            exact absurd hmem (List.not_mem_nil g1)
        · have hmem : g2 ∈ fields.filter (fun f => !f.is_static) :=
            List.mem_filter.mpr ⟨hg2, by simp [hg2s]⟩
          rw [← hns] at hmem
          cases hE : p.2.isEmpty
          · rfl
          · rw [List.isEmpty_eq_true] at hE
            rw [hE] at hmem
            exact absurd hmem (List.not_mem_nil g2)
      · intro _
        rfl

/-- C9, witness: one plain field plus one singleton field generates; simple
violating sets are rejected. -/
theorem C9_witness :
    processStruct [⟨false, false⟩, ⟨false, true⟩] = .ok () ∧
      processStruct [⟨true, false⟩, ⟨false, false⟩] ≠ .ok () ∧
      processStruct [⟨true, true⟩] ≠ .ok () ∧
      processStruct [⟨false, true⟩, ⟨false, true⟩] ≠ .ok () :=
  ⟨(C9_generation [⟨false, false⟩, ⟨false, true⟩]).mpr (by decide),
    fun h => by
      have := (C9_generation [⟨true, false⟩, ⟨false, false⟩]).mp h
      revert this
      decide,
    fun h => by
      have := (C9_generation [⟨true, true⟩]).mp h
      revert this
      decide,
    fun h => by
      have := (C9_generation [⟨false, true⟩, ⟨false, true⟩]).mp h
      revert this
      decide⟩
